import Mathlib

/-!
Shallow embedding of the lexical scanner of the `programming-lang` repository.

The repository holds two copies of the scanner:
* `src/lexer/lexer.rs` — the complete implementation (`tokenize`), and
* `src/lexer.rs` — a near-identical duplicate (`tokenizeDup` below) whose
  numeric branch builds the digit run but never pushes the `Number` token.

Rust's character classes (`char::is_numeric`, `char::is_alphabetic`,
`char::is_whitespace`) consult external Unicode tables; they are modelled
here on explicit code-point ranges, documented at each definition.
-/

namespace MiniLang

/-- `TokenType` from both lexer files (the spec's `TokenKind`). -/
inductive TokenType where
  | Null
  | Number
  | Identifier
  | Let
  | Equals
  | OpenParen
  | CloseParen
  | BinaryOperator
  | EOF
deriving DecidableEq, Repr

/-- `Token { value, type_ }` from both lexer files. -/
structure Token where
  value : String
  type_ : TokenType
deriving DecidableEq, Repr

/-- The `panic!("Unrecognized character ...")` arm of the scanner, modelled as
an explicit error value carrying the offending character. -/
inductive LexError where
  | unrecognizedCharacter (c : Char)
deriving DecidableEq, Repr

/-- The Unicode `White_Space` property on code points, the table behind Rust's
`char::is_whitespace` (this table is complete). -/
def isWhitespaceCode (n : Nat) : Bool :=
  (0x9 ≤ n && n ≤ 0xd) || n == 0x20 || n == 0x85 || n == 0xa0 || n == 0x1680 ||
  (0x2000 ≤ n && n ≤ 0x200a) || n == 0x2028 || n == 0x2029 || n == 0x202f ||
  n == 0x205f || n == 0x3000

/-- Rust `char::is_whitespace`. -/
def rustIsWhitespace (c : Char) : Bool :=
  isWhitespaceCode c.toNat

/-- The Unicode general category `N` (`Nd ∪ Nl ∪ No`) on code points, the
table behind Rust's `char::is_numeric`, restricted to the Basic Multilingual
Plane (the supplementary-plane numeric ranges are omitted; no claim below
depends on a supplementary-plane character). -/
def isNumericCode (n : Nat) : Bool :=
  (0x30 ≤ n && n ≤ 0x39) ||
  (0xb2 ≤ n && n ≤ 0xb3) || n == 0xb9 || (0xbc ≤ n && n ≤ 0xbe) ||
  (0x660 ≤ n && n ≤ 0x669) || (0x6f0 ≤ n && n ≤ 0x6f9) ||
  (0x7c0 ≤ n && n ≤ 0x7c9) || (0x966 ≤ n && n ≤ 0x96f) ||
  (0x9e6 ≤ n && n ≤ 0x9ef) || (0x9f4 ≤ n && n ≤ 0x9f9) ||
  (0xa66 ≤ n && n ≤ 0xa6f) || (0xae6 ≤ n && n ≤ 0xaef) ||
  (0xb66 ≤ n && n ≤ 0xb6f) || (0xb72 ≤ n && n ≤ 0xb77) ||
  (0xbe6 ≤ n && n ≤ 0xbf2) || (0xc66 ≤ n && n ≤ 0xc6f) ||
  (0xc78 ≤ n && n ≤ 0xc7e) || (0xce6 ≤ n && n ≤ 0xcef) ||
  (0xd58 ≤ n && n ≤ 0xd5e) || (0xd66 ≤ n && n ≤ 0xd78) ||
  (0xde6 ≤ n && n ≤ 0xdef) || (0xe50 ≤ n && n ≤ 0xe59) ||
  (0xed0 ≤ n && n ≤ 0xed9) || (0xf20 ≤ n && n ≤ 0xf33) ||
  (0x1040 ≤ n && n ≤ 0x1049) || (0x1090 ≤ n && n ≤ 0x1099) ||
  (0x1369 ≤ n && n ≤ 0x137c) || (0x16ee ≤ n && n ≤ 0x16f0) ||
  (0x17e0 ≤ n && n ≤ 0x17e9) || (0x17f0 ≤ n && n ≤ 0x17f9) ||
  (0x1810 ≤ n && n ≤ 0x1819) || (0x1946 ≤ n && n ≤ 0x194f) ||
  (0x19d0 ≤ n && n ≤ 0x19da) || (0x1a80 ≤ n && n ≤ 0x1a89) ||
  (0x1a90 ≤ n && n ≤ 0x1a99) || (0x1b50 ≤ n && n ≤ 0x1b59) ||
  (0x1bb0 ≤ n && n ≤ 0x1bb9) || (0x1c40 ≤ n && n ≤ 0x1c49) ||
  (0x1c50 ≤ n && n ≤ 0x1c59) || n == 0x2070 ||
  (0x2074 ≤ n && n ≤ 0x2079) || (0x2080 ≤ n && n ≤ 0x2089) ||
  (0x2150 ≤ n && n ≤ 0x2182) || (0x2185 ≤ n && n ≤ 0x2189) ||
  (0x2460 ≤ n && n ≤ 0x249b) || (0x24ea ≤ n && n ≤ 0x24ff) ||
  (0x2776 ≤ n && n ≤ 0x2793) || n == 0x2cfd || n == 0x3007 ||
  (0x3021 ≤ n && n ≤ 0x3029) || (0x3038 ≤ n && n ≤ 0x303a) ||
  (0x3192 ≤ n && n ≤ 0x3195) || (0x3220 ≤ n && n ≤ 0x3229) ||
  (0x3248 ≤ n && n ≤ 0x324f) || (0x3251 ≤ n && n ≤ 0x325f) ||
  (0x3280 ≤ n && n ≤ 0x3289) || (0x32b1 ≤ n && n ≤ 0x32bf) ||
  (0xa620 ≤ n && n ≤ 0xa629) || (0xa6e6 ≤ n && n ≤ 0xa6ef) ||
  (0xa830 ≤ n && n ≤ 0xa835) || (0xa8d0 ≤ n && n ≤ 0xa8d9) ||
  (0xa900 ≤ n && n ≤ 0xa909) || (0xa9d0 ≤ n && n ≤ 0xa9d9) ||
  (0xa9f0 ≤ n && n ≤ 0xa9f9) || (0xaa50 ≤ n && n ≤ 0xaa59) ||
  (0xabf0 ≤ n && n ≤ 0xabf9) || (0xff10 ≤ n && n ≤ 0xff19)

/-- Rust `char::is_numeric`. -/
def rustIsNumeric (c : Char) : Bool :=
  isNumericCode c.toNat

/-- The Unicode `Alphabetic` property on code points, the table behind Rust's
`char::is_alphabetic`, restricted here to the Latin, Greek and Cyrillic letter
ranges (the full property is a large external table; every claim below either
quantifies over this class generically or uses characters inside the
restriction). -/
def isAlphabeticCode (n : Nat) : Bool :=
  (0x41 ≤ n && n ≤ 0x5a) || (0x61 ≤ n && n ≤ 0x7a) ||
  n == 0xaa || n == 0xb5 || n == 0xba ||
  (0xc0 ≤ n && n ≤ 0xd6) || (0xd8 ≤ n && n ≤ 0xf6) || (0xf8 ≤ n && n ≤ 0x2c1) ||
  (0x391 ≤ n && n ≤ 0x3a1) || (0x3a3 ≤ n && n ≤ 0x3c9) ||
  (0x410 ≤ n && n ≤ 0x44f)

/-- Rust `char::is_alphabetic`. -/
def rustIsAlphabetic (c : Char) : Bool :=
  isAlphabeticCode c.toNat

/-- The `keywords` table built at the top of both `tokenize` functions:
`HashMap::from([("let", Let), ("null", Null)])`. -/
def keywords : List (String × TokenType) :=
  [("let", TokenType.Let), ("null", TokenType.Null)]

/-- The keyword lookup of the identifier branch:
`match keywords.get(&*ident) { Some(t) => t, None => Identifier }`. -/
def keywordType (ident : String) : TokenType :=
  match keywords.lookup ident with
  | some t => t
  | none => TokenType.Identifier

/-- The scanning loop of `tokenize` in `src/lexer/lexer.rs` (the complete
implementation): `src` is the remaining character deque, `tokens` the vector
of tokens pushed so far.  The inner `while let` loops of the numeric and
alphabetic branches consume the maximal run of their class, rendered with
`takeWhile`/`dropWhile`; the `panic!` arm is the error result. -/
def tokenizeGo : List Char → List Token → Except LexError (List Token)
  | [], tokens => Except.ok (tokens ++ [⟨"EndOfFile", TokenType.EOF⟩])
  | c :: rest, tokens =>
    if c = '(' then tokenizeGo rest (tokens ++ [⟨"(", TokenType.OpenParen⟩])
    else if c = ')' then tokenizeGo rest (tokens ++ [⟨")", TokenType.CloseParen⟩])
    else if c = '+' then tokenizeGo rest (tokens ++ [⟨"+", TokenType.BinaryOperator⟩])
    else if c = '-' then tokenizeGo rest (tokens ++ [⟨"-", TokenType.BinaryOperator⟩])
    else if c = '*' then tokenizeGo rest (tokens ++ [⟨"*", TokenType.BinaryOperator⟩])
    else if c = '/' then tokenizeGo rest (tokens ++ [⟨"/", TokenType.BinaryOperator⟩])
    else if c = '%' then tokenizeGo rest (tokens ++ [⟨"%", TokenType.BinaryOperator⟩])
    else if c = '=' then tokenizeGo rest (tokens ++ [⟨"=", TokenType.Equals⟩])
    else if hnum : rustIsNumeric c then
      tokenizeGo ((c :: rest).dropWhile rustIsNumeric)
        (tokens ++ [⟨String.mk ((c :: rest).takeWhile rustIsNumeric), TokenType.Number⟩])
    else if halpha : rustIsAlphabetic c then
      tokenizeGo ((c :: rest).dropWhile rustIsAlphabetic)
        (tokens ++ [⟨String.mk ((c :: rest).takeWhile rustIsAlphabetic),
          keywordType (String.mk ((c :: rest).takeWhile rustIsAlphabetic))⟩])
    else if rustIsWhitespace c then
      tokenizeGo rest tokens
    else
      Except.error (LexError.unrecognizedCharacter c)
termination_by src _ => src.length
decreasing_by
· simp
· simp
· simp
· simp
· simp
· simp
· simp
· simp
· simp only [List.length_cons, List.dropWhile_cons_of_pos hnum]
  exact Nat.lt_succ_of_le (List.dropWhile_sublist rustIsNumeric).length_le
· simp only [List.length_cons, List.dropWhile_cons_of_pos halpha]
  exact Nat.lt_succ_of_le (List.dropWhile_sublist rustIsAlphabetic).length_le
· simp

/-- `tokenize` of `src/lexer/lexer.rs`. -/
def tokenize (source_code : String) : Except LexError (List Token) :=
  tokenizeGo source_code.data []

/-- The scanning loop of `tokenize` in `src/lexer.rs` (the incomplete
duplicate).  Identical to `tokenizeGo` except the numeric branch: it builds
the digit run into `num` but contains no `tokens.push`, so the run is
consumed and the token discarded. -/
def tokenizeDupGo : List Char → List Token → Except LexError (List Token)
  | [], tokens => Except.ok (tokens ++ [⟨"EndOfFile", TokenType.EOF⟩])
  | c :: rest, tokens =>
    if c = '(' then tokenizeDupGo rest (tokens ++ [⟨"(", TokenType.OpenParen⟩])
    else if c = ')' then tokenizeDupGo rest (tokens ++ [⟨")", TokenType.CloseParen⟩])
    else if c = '+' then tokenizeDupGo rest (tokens ++ [⟨"+", TokenType.BinaryOperator⟩])
    else if c = '-' then tokenizeDupGo rest (tokens ++ [⟨"-", TokenType.BinaryOperator⟩])
    else if c = '*' then tokenizeDupGo rest (tokens ++ [⟨"*", TokenType.BinaryOperator⟩])
    else if c = '/' then tokenizeDupGo rest (tokens ++ [⟨"/", TokenType.BinaryOperator⟩])
    else if c = '%' then tokenizeDupGo rest (tokens ++ [⟨"%", TokenType.BinaryOperator⟩])
    else if c = '=' then tokenizeDupGo rest (tokens ++ [⟨"=", TokenType.Equals⟩])
    else if hnum : rustIsNumeric c then
      let _num := String.mk ((c :: rest).takeWhile rustIsNumeric)
      tokenizeDupGo ((c :: rest).dropWhile rustIsNumeric) tokens
    else if halpha : rustIsAlphabetic c then
      tokenizeDupGo ((c :: rest).dropWhile rustIsAlphabetic)
        (tokens ++ [⟨String.mk ((c :: rest).takeWhile rustIsAlphabetic),
          keywordType (String.mk ((c :: rest).takeWhile rustIsAlphabetic))⟩])
    else if rustIsWhitespace c then
      tokenizeDupGo rest tokens
    else
      Except.error (LexError.unrecognizedCharacter c)
termination_by src _ => src.length
decreasing_by
· simp
· simp
· simp
· simp
· simp
· simp
· simp
· simp
· simp only [List.length_cons, List.dropWhile_cons_of_pos hnum]
  exact Nat.lt_succ_of_le (List.dropWhile_sublist rustIsNumeric).length_le
· simp only [List.length_cons, List.dropWhile_cons_of_pos halpha]
  exact Nat.lt_succ_of_le (List.dropWhile_sublist rustIsAlphabetic).length_le
· simp

/-- `tokenize` of `src/lexer.rs`. -/
def tokenizeDup (source_code : String) : Except LexError (List Token) :=
  tokenizeDupGo source_code.data []

/-- A character is in one of the scanner's dispatch classes: one of the eight
punctuation/operator characters, or numeric, alphabetic or whitespace in the
sense of the Rust character predicates the scanner calls. -/
def inDispatchClass (c : Char) : Bool :=
  c == '(' || c == ')' || c == '+' || c == '-' || c == '*' || c == '/' ||
  c == '%' || c == '=' || rustIsNumeric c || rustIsAlphabetic c ||
  rustIsWhitespace c

/-- The sentinel token appended after the scan loop. -/
def eofToken : Token :=
  ⟨"EndOfFile", TokenType.EOF⟩

/-- A token whose kind is not `Number` (the duplicate scanner drops exactly
the `Number` tokens). -/
def notNum (t : Token) : Bool := !(t.type_ == TokenType.Number)

/-- The concatenation of the lexeme texts of a token list, as characters. -/
def lexemeChars (ts : List Token) : List Char :=
  (ts.map (fun t => t.value.data)).flatten


theorem ws_char_props {c : Char} (h : rustIsWhitespace c = true) :
    rustIsNumeric c = false ∧ rustIsAlphabetic c = false ∧
    c ≠ '(' ∧ c ≠ ')' ∧ c ≠ '+' ∧ c ≠ '-' ∧ c ≠ '*' ∧ c ≠ '/' ∧ c ≠ '%' ∧ c ≠ '=' := by
  have h' : isWhitespaceCode c.toNat = true := h
  simp only [isWhitespaceCode, Bool.or_eq_true, Bool.and_eq_true, decide_eq_true_eq,
    beq_iff_eq] at h'
  refine ⟨?_, ?_, ?_, ?_, ?_, ?_, ?_, ?_, ?_, ?_⟩
  · cases hb : rustIsNumeric c with
    | false => rfl
    | true =>
      exfalso
      have hb' : isNumericCode c.toNat = true := hb
      simp only [isNumericCode, Bool.or_eq_true, Bool.and_eq_true, decide_eq_true_eq,
        beq_iff_eq] at hb'
      omega
  · cases hb : rustIsAlphabetic c with
    | false => rfl
    | true =>
      exfalso
      have hb' : isAlphabeticCode c.toNat = true := hb
      simp only [isAlphabeticCode, Bool.or_eq_true, Bool.and_eq_true, decide_eq_true_eq,
        beq_iff_eq] at hb'
      omega
  all_goals intro e
  all_goals subst e
  all_goals revert h
  all_goals decide

theorem num_char_props {c : Char} (h : rustIsNumeric c = true) :
    rustIsWhitespace c = false ∧
    c ≠ '(' ∧ c ≠ ')' ∧ c ≠ '+' ∧ c ≠ '-' ∧ c ≠ '*' ∧ c ≠ '/' ∧ c ≠ '%' ∧ c ≠ '=' := by
  have h' : isNumericCode c.toNat = true := h
  simp only [isNumericCode, Bool.or_eq_true, Bool.and_eq_true, decide_eq_true_eq,
    beq_iff_eq] at h'
  refine ⟨?_, ?_, ?_, ?_, ?_, ?_, ?_, ?_, ?_⟩
  · cases hb : rustIsWhitespace c with
    | false => rfl
    | true =>
      exfalso
      have hb' : isWhitespaceCode c.toNat = true := hb
      simp only [isWhitespaceCode, Bool.or_eq_true, Bool.and_eq_true, decide_eq_true_eq,
        beq_iff_eq] at hb'
      omega
  all_goals intro e
  all_goals subst e
  all_goals revert h
  all_goals decide

theorem alpha_char_props {c : Char} (h : rustIsAlphabetic c = true) :
    rustIsNumeric c = false ∧ rustIsWhitespace c = false ∧
    c ≠ '(' ∧ c ≠ ')' ∧ c ≠ '+' ∧ c ≠ '-' ∧ c ≠ '*' ∧ c ≠ '/' ∧ c ≠ '%' ∧ c ≠ '=' := by
  have h' : isAlphabeticCode c.toNat = true := h
  simp only [isAlphabeticCode, Bool.or_eq_true, Bool.and_eq_true, decide_eq_true_eq,
    beq_iff_eq] at h'
  refine ⟨?_, ?_, ?_, ?_, ?_, ?_, ?_, ?_, ?_, ?_⟩
  · cases hb : rustIsNumeric c with
    | false => rfl
    | true =>
      exfalso
      have hb' : isNumericCode c.toNat = true := hb
      simp only [isNumericCode, Bool.or_eq_true, Bool.and_eq_true, decide_eq_true_eq,
        beq_iff_eq] at hb'
      omega
  · cases hb : rustIsWhitespace c with
    | false => rfl
    | true =>
      exfalso
      have hb' : isWhitespaceCode c.toNat = true := hb
      simp only [isWhitespaceCode, Bool.or_eq_true, Bool.and_eq_true, decide_eq_true_eq,
        beq_iff_eq] at hb'
      omega
  all_goals intro e
  all_goals subst e
  all_goals revert h
  all_goals decide


theorem tokenizeGo_ws_cons {c : Char} (h : rustIsWhitespace c = true)
    (rest : List Char) (tokens : List Token) :
    tokenizeGo (c :: rest) tokens = tokenizeGo rest tokens := by
  obtain ⟨hn, ha, p1, p2, p3, p4, p5, p6, p7, p8⟩ := ws_char_props h
  rw [tokenizeGo]
  simp [p1, p2, p3, p4, p5, p6, p7, p8, hn, ha, h]

theorem tokenizeGo_num_cons {c : Char} (h : rustIsNumeric c = true)
    (rest : List Char) (tokens : List Token) :
    tokenizeGo (c :: rest) tokens =
      tokenizeGo ((c :: rest).dropWhile rustIsNumeric)
        (tokens ++ [⟨String.mk ((c :: rest).takeWhile rustIsNumeric), TokenType.Number⟩]) := by
  obtain ⟨hw, p1, p2, p3, p4, p5, p6, p7, p8⟩ := num_char_props h
  rw [tokenizeGo]
  simp [p1, p2, p3, p4, p5, p6, p7, p8, h]

theorem tokenizeGo_alpha_cons {c : Char} (h : rustIsAlphabetic c = true)
    (rest : List Char) (tokens : List Token) :
    tokenizeGo (c :: rest) tokens =
      tokenizeGo ((c :: rest).dropWhile rustIsAlphabetic)
        (tokens ++ [⟨String.mk ((c :: rest).takeWhile rustIsAlphabetic),
          keywordType (String.mk ((c :: rest).takeWhile rustIsAlphabetic))⟩]) := by
  obtain ⟨hn, hw, p1, p2, p3, p4, p5, p6, p7, p8⟩ := alpha_char_props h
  rw [tokenizeGo]
  simp [p1, p2, p3, p4, p5, p6, p7, p8, hn, h]

theorem tokenizeGo_err_cons {c : Char} (h : inDispatchClass c = false)
    (rest : List Char) (tokens : List Token) :
    tokenizeGo (c :: rest) tokens = Except.error (LexError.unrecognizedCharacter c) := by
  simp only [inDispatchClass, Bool.or_eq_false_iff, beq_eq_false_iff_ne, ne_eq] at h
  obtain ⟨⟨⟨⟨⟨⟨⟨⟨⟨⟨p1, p2⟩, p3⟩, p4⟩, p5⟩, p6⟩, p7⟩, p8⟩, hn⟩, ha⟩, hw⟩ := h
  rw [tokenizeGo]
  simp [p1, p2, p3, p4, p5, p6, p7, p8, hn, ha, hw]

theorem tokenizeGo_acc (src : List Char) (tokens : List Token) :
    ∀ pre : List Token,
      tokenizeGo src (pre ++ tokens) = (tokenizeGo src tokens).map (fun ts => pre ++ ts) := by
  induction src, tokens using tokenizeGo.induct <;> intro pre <;>
    simp_all [tokenizeGo, Except.map, List.append_assoc]


theorem no_eof_push {tokens : List Token} (hacc : ∀ t ∈ tokens, t.type_ ≠ TokenType.EOF)
    {tok : Token} (htok : tok.type_ ≠ TokenType.EOF) :
    ∀ t ∈ tokens ++ [tok], t.type_ ≠ TokenType.EOF := by
  intro t ht
  rcases List.mem_append.mp ht with h | h
  · exact hacc t h
  · rw [List.mem_singleton] at h
    subst h
    exact htok

theorem keywordType_ne_eof (s : String) : keywordType s ≠ TokenType.EOF := by
  by_cases h1 : s = "let"
  · simp [keywordType, keywords, List.lookup, h1]
  · have e1 : (s == "let") = false := beq_eq_false_iff_ne.mpr h1
    by_cases h2 : s = "null"
    · simp [keywordType, keywords, List.lookup, e1, h2]
    · have e2 : (s == "null") = false := beq_eq_false_iff_ne.mpr h2
      simp [keywordType, keywords, List.lookup, e1, e2]

theorem inDispatchClass_false {c : Char} (p1 : ¬c = '(') (p2 : ¬c = ')') (p3 : ¬c = '+')
    (p4 : ¬c = '-') (p5 : ¬c = '*') (p6 : ¬c = '/') (p7 : ¬c = '%') (p8 : ¬c = '=')
    (hn : ¬rustIsNumeric c = true) (ha : ¬rustIsAlphabetic c = true)
    (hw : ¬rustIsWhitespace c = true) : inDispatchClass c = false := by
  simp [inDispatchClass, p1, p2, p3, p4, p5, p6, p7, p8, hn, ha, hw]

theorem tokenizeGo_ok_shape (src : List Char) (tokens : List Token) :
    ∀ ts, (∀ t ∈ tokens, t.type_ ≠ TokenType.EOF) → tokenizeGo src tokens = Except.ok ts →
      ∃ front, ts = front ++ [eofToken] ∧ ∀ t ∈ front, t.type_ ≠ TokenType.EOF := by
  induction src, tokens using tokenizeGo.induct with
  | case1 tokens =>
    intro ts hacc heq
    simp only [tokenizeGo, Except.ok.injEq] at heq
    exact ⟨tokens, heq.symm, hacc⟩
  | case2 rest tokens ih =>
    intro ts hacc heq
    rw [tokenizeGo] at heq
    simp only [if_pos] at heq
    exact ih ts (no_eof_push hacc (fun h => TokenType.noConfusion h)) heq
  | case3 rest tokens _ ih =>
    intro ts hacc heq
    rw [tokenizeGo] at heq
    simp at heq
    exact ih ts (no_eof_push hacc (fun h => TokenType.noConfusion h)) heq
  | case4 rest tokens _ _ ih =>
    intro ts hacc heq
    rw [tokenizeGo] at heq
    simp at heq
    exact ih ts (no_eof_push hacc (fun h => TokenType.noConfusion h)) heq
  | case5 rest tokens _ _ _ ih =>
    intro ts hacc heq
    rw [tokenizeGo] at heq
    simp at heq
    exact ih ts (no_eof_push hacc (fun h => TokenType.noConfusion h)) heq
  | case6 rest tokens _ _ _ _ ih =>
    intro ts hacc heq
    rw [tokenizeGo] at heq
    simp at heq
    exact ih ts (no_eof_push hacc (fun h => TokenType.noConfusion h)) heq
  | case7 rest tokens _ _ _ _ _ ih =>
    intro ts hacc heq
    rw [tokenizeGo] at heq
    simp at heq
    exact ih ts (no_eof_push hacc (fun h => TokenType.noConfusion h)) heq
  | case8 rest tokens _ _ _ _ _ _ ih =>
    intro ts hacc heq
    rw [tokenizeGo] at heq
    simp at heq
    exact ih ts (no_eof_push hacc (fun h => TokenType.noConfusion h)) heq
  | case9 rest tokens _ _ _ _ _ _ _ ih =>
    intro ts hacc heq
    rw [tokenizeGo] at heq
    simp at heq
    exact ih ts (no_eof_push hacc (fun h => TokenType.noConfusion h)) heq
  | case10 c rest tokens p1 p2 p3 p4 p5 p6 p7 p8 hnum ih =>
    intro ts hacc heq
    rw [tokenizeGo_num_cons hnum] at heq
    exact ih ts (no_eof_push hacc (fun h => TokenType.noConfusion h)) heq
  | case11 c rest tokens p1 p2 p3 p4 p5 p6 p7 p8 hnn halpha ih =>
    intro ts hacc heq
    rw [tokenizeGo_alpha_cons halpha] at heq
    exact ih ts (no_eof_push hacc (keywordType_ne_eof _)) heq
  | case12 c rest tokens p1 p2 p3 p4 p5 p6 p7 p8 hnn han hws ih =>
    intro ts hacc heq
    rw [tokenizeGo_ws_cons hws] at heq
    exact ih ts hacc heq
  | case13 c rest tokens p1 p2 p3 p4 p5 p6 p7 p8 hnn han hwn =>
    intro ts hacc heq
    rw [tokenizeGo_err_cons (inDispatchClass_false p1 p2 p3 p4 p5 p6 p7 p8 hnn han hwn)] at heq
    simp at heq


theorem tokenizeGo_lparen_cons (rest : List Char) (tokens : List Token) :
    tokenizeGo ('(' :: rest) tokens = tokenizeGo rest (tokens ++ [⟨"(", TokenType.OpenParen⟩]) := by
  rw [tokenizeGo]
  simp

theorem tokenizeGo_rparen_cons (rest : List Char) (tokens : List Token) :
    tokenizeGo (')' :: rest) tokens = tokenizeGo rest (tokens ++ [⟨")", TokenType.CloseParen⟩]) := by
  rw [tokenizeGo]
  simp

theorem tokenizeGo_plus_cons (rest : List Char) (tokens : List Token) :
    tokenizeGo ('+' :: rest) tokens = tokenizeGo rest (tokens ++ [⟨"+", TokenType.BinaryOperator⟩]) := by
  rw [tokenizeGo]
  simp

theorem tokenizeGo_minus_cons (rest : List Char) (tokens : List Token) :
    tokenizeGo ('-' :: rest) tokens = tokenizeGo rest (tokens ++ [⟨"-", TokenType.BinaryOperator⟩]) := by
  rw [tokenizeGo]
  simp

theorem tokenizeGo_star_cons (rest : List Char) (tokens : List Token) :
    tokenizeGo ('*' :: rest) tokens = tokenizeGo rest (tokens ++ [⟨"*", TokenType.BinaryOperator⟩]) := by
  rw [tokenizeGo]
  simp

theorem tokenizeGo_slash_cons (rest : List Char) (tokens : List Token) :
    tokenizeGo ('/' :: rest) tokens = tokenizeGo rest (tokens ++ [⟨"/", TokenType.BinaryOperator⟩]) := by
  rw [tokenizeGo]
  simp

theorem tokenizeGo_percent_cons (rest : List Char) (tokens : List Token) :
    tokenizeGo ('%' :: rest) tokens = tokenizeGo rest (tokens ++ [⟨"%", TokenType.BinaryOperator⟩]) := by
  rw [tokenizeGo]
  simp

theorem tokenizeGo_equals_cons (rest : List Char) (tokens : List Token) :
    tokenizeGo ('=' :: rest) tokens = tokenizeGo rest (tokens ++ [⟨"=", TokenType.Equals⟩]) := by
  rw [tokenizeGo]
  simp

theorem tokenizeDupGo_lparen_cons (rest : List Char) (tokens : List Token) :
    tokenizeDupGo ('(' :: rest) tokens = tokenizeDupGo rest (tokens ++ [⟨"(", TokenType.OpenParen⟩]) := by
  rw [tokenizeDupGo]
  simp

theorem tokenizeDupGo_rparen_cons (rest : List Char) (tokens : List Token) :
    tokenizeDupGo (')' :: rest) tokens = tokenizeDupGo rest (tokens ++ [⟨")", TokenType.CloseParen⟩]) := by
  rw [tokenizeDupGo]
  simp

theorem tokenizeDupGo_plus_cons (rest : List Char) (tokens : List Token) :
    tokenizeDupGo ('+' :: rest) tokens = tokenizeDupGo rest (tokens ++ [⟨"+", TokenType.BinaryOperator⟩]) := by
  rw [tokenizeDupGo]
  simp

theorem tokenizeDupGo_minus_cons (rest : List Char) (tokens : List Token) :
    tokenizeDupGo ('-' :: rest) tokens = tokenizeDupGo rest (tokens ++ [⟨"-", TokenType.BinaryOperator⟩]) := by
  rw [tokenizeDupGo]
  simp

theorem tokenizeDupGo_star_cons (rest : List Char) (tokens : List Token) :
    tokenizeDupGo ('*' :: rest) tokens = tokenizeDupGo rest (tokens ++ [⟨"*", TokenType.BinaryOperator⟩]) := by
  rw [tokenizeDupGo]
  simp

theorem tokenizeDupGo_slash_cons (rest : List Char) (tokens : List Token) :
    tokenizeDupGo ('/' :: rest) tokens = tokenizeDupGo rest (tokens ++ [⟨"/", TokenType.BinaryOperator⟩]) := by
  rw [tokenizeDupGo]
  simp

theorem tokenizeDupGo_percent_cons (rest : List Char) (tokens : List Token) :
    tokenizeDupGo ('%' :: rest) tokens = tokenizeDupGo rest (tokens ++ [⟨"%", TokenType.BinaryOperator⟩]) := by
  rw [tokenizeDupGo]
  simp

theorem tokenizeDupGo_equals_cons (rest : List Char) (tokens : List Token) :
    tokenizeDupGo ('=' :: rest) tokens = tokenizeDupGo rest (tokens ++ [⟨"=", TokenType.Equals⟩]) := by
  rw [tokenizeDupGo]
  simp

theorem tokenizeDupGo_ws_cons {c : Char} (h : rustIsWhitespace c = true)
    (rest : List Char) (tokens : List Token) :
    tokenizeDupGo (c :: rest) tokens = tokenizeDupGo rest tokens := by
  obtain ⟨hn, ha, p1, p2, p3, p4, p5, p6, p7, p8⟩ := ws_char_props h
  rw [tokenizeDupGo]
  simp [p1, p2, p3, p4, p5, p6, p7, p8, hn, ha, h]

theorem tokenizeDupGo_num_cons {c : Char} (h : rustIsNumeric c = true)
    (rest : List Char) (tokens : List Token) :
    tokenizeDupGo (c :: rest) tokens =
      tokenizeDupGo ((c :: rest).dropWhile rustIsNumeric) tokens := by
  obtain ⟨hw, p1, p2, p3, p4, p5, p6, p7, p8⟩ := num_char_props h
  rw [tokenizeDupGo]
  simp [p1, p2, p3, p4, p5, p6, p7, p8, h]

theorem tokenizeDupGo_alpha_cons {c : Char} (h : rustIsAlphabetic c = true)
    (rest : List Char) (tokens : List Token) :
    tokenizeDupGo (c :: rest) tokens =
      tokenizeDupGo ((c :: rest).dropWhile rustIsAlphabetic)
        (tokens ++ [⟨String.mk ((c :: rest).takeWhile rustIsAlphabetic),
          keywordType (String.mk ((c :: rest).takeWhile rustIsAlphabetic))⟩]) := by
  obtain ⟨hn, hw, p1, p2, p3, p4, p5, p6, p7, p8⟩ := alpha_char_props h
  rw [tokenizeDupGo]
  simp [p1, p2, p3, p4, p5, p6, p7, p8, hn, h]

theorem tokenizeDupGo_err_cons {c : Char} (h : inDispatchClass c = false)
    (rest : List Char) (tokens : List Token) :
    tokenizeDupGo (c :: rest) tokens = Except.error (LexError.unrecognizedCharacter c) := by
  simp only [inDispatchClass, Bool.or_eq_false_iff, beq_eq_false_iff_ne, ne_eq] at h
  obtain ⟨⟨⟨⟨⟨⟨⟨⟨⟨⟨p1, p2⟩, p3⟩, p4⟩, p5⟩, p6⟩, p7⟩, p8⟩, hn⟩, ha⟩, hw⟩ := h
  rw [tokenizeDupGo]
  simp [p1, p2, p3, p4, p5, p6, p7, p8, hn, ha, hw]


theorem inDispatchClass_of_num {c : Char} (h : rustIsNumeric c = true) :
    inDispatchClass c = true := by
  simp [inDispatchClass, h]

theorem inDispatchClass_of_alpha {c : Char} (h : rustIsAlphabetic c = true) :
    inDispatchClass c = true := by
  simp [inDispatchClass, h]

theorem inDispatchClass_of_ws {c : Char} (h : rustIsWhitespace c = true) :
    inDispatchClass c = true := by
  simp [inDispatchClass, h]

theorem tokenizeGo_ok_of_good (src : List Char) (tokens : List Token) :
    (∀ c ∈ src, inDispatchClass c = true) → ∃ ts, tokenizeGo src tokens = Except.ok ts := by
  induction src, tokens using tokenizeGo.induct with
  | case1 tokens =>
    intro _
    exact ⟨_, by rw [tokenizeGo]⟩
  | case2 rest tokens ih =>
    intro hgood
    obtain ⟨ts, hts⟩ := ih (fun c hc => hgood c (List.mem_cons_of_mem _ hc))
    exact ⟨ts, by rw [tokenizeGo_lparen_cons]; exact hts⟩
  | case3 rest tokens _ ih =>
    intro hgood
    obtain ⟨ts, hts⟩ := ih (fun c hc => hgood c (List.mem_cons_of_mem _ hc))
    exact ⟨ts, by rw [tokenizeGo_rparen_cons]; exact hts⟩
  | case4 rest tokens _ _ ih =>
    intro hgood
    obtain ⟨ts, hts⟩ := ih (fun c hc => hgood c (List.mem_cons_of_mem _ hc))
    exact ⟨ts, by rw [tokenizeGo_plus_cons]; exact hts⟩
  | case5 rest tokens _ _ _ ih =>
    intro hgood
    obtain ⟨ts, hts⟩ := ih (fun c hc => hgood c (List.mem_cons_of_mem _ hc))
    exact ⟨ts, by rw [tokenizeGo_minus_cons]; exact hts⟩
  | case6 rest tokens _ _ _ _ ih =>
    intro hgood
    obtain ⟨ts, hts⟩ := ih (fun c hc => hgood c (List.mem_cons_of_mem _ hc))
    exact ⟨ts, by rw [tokenizeGo_star_cons]; exact hts⟩
  | case7 rest tokens _ _ _ _ _ ih =>
    intro hgood
    obtain ⟨ts, hts⟩ := ih (fun c hc => hgood c (List.mem_cons_of_mem _ hc))
    exact ⟨ts, by rw [tokenizeGo_slash_cons]; exact hts⟩
  | case8 rest tokens _ _ _ _ _ _ ih =>
    intro hgood
    obtain ⟨ts, hts⟩ := ih (fun c hc => hgood c (List.mem_cons_of_mem _ hc))
    exact ⟨ts, by rw [tokenizeGo_percent_cons]; exact hts⟩
  | case9 rest tokens _ _ _ _ _ _ _ ih =>
    intro hgood
    obtain ⟨ts, hts⟩ := ih (fun c hc => hgood c (List.mem_cons_of_mem _ hc))
    exact ⟨ts, by rw [tokenizeGo_equals_cons]; exact hts⟩
  | case10 c rest tokens p1 p2 p3 p4 p5 p6 p7 p8 hnum ih =>
    intro hgood
    obtain ⟨ts, hts⟩ := ih (fun e he => hgood e ((List.dropWhile_sublist _).subset he))
    exact ⟨ts, by rw [tokenizeGo_num_cons hnum]; exact hts⟩
  | case11 c rest tokens p1 p2 p3 p4 p5 p6 p7 p8 hnn halpha ih =>
    intro hgood
    obtain ⟨ts, hts⟩ := ih (fun e he => hgood e ((List.dropWhile_sublist _).subset he))
    exact ⟨ts, by rw [tokenizeGo_alpha_cons halpha]; exact hts⟩
  | case12 c rest tokens p1 p2 p3 p4 p5 p6 p7 p8 hnn han hws ih =>
    intro hgood
    obtain ⟨ts, hts⟩ := ih (fun c hc => hgood c (List.mem_cons_of_mem _ hc))
    exact ⟨ts, by rw [tokenizeGo_ws_cons hws]; exact hts⟩
  | case13 c rest tokens p1 p2 p3 p4 p5 p6 p7 p8 hnn han hwn =>
    intro hgood
    have hc := hgood c (by simp)
    rw [inDispatchClass_false p1 p2 p3 p4 p5 p6 p7 p8 hnn han hwn] at hc
    cases hc

theorem tokenizeGo_err_of_bad (src : List Char) (tokens : List Token) :
    (∃ c ∈ src, inDispatchClass c = false) →
      ∃ e, inDispatchClass e = false ∧
        tokenizeGo src tokens = Except.error (LexError.unrecognizedCharacter e) := by
  induction src, tokens using tokenizeGo.induct with
  | case1 tokens =>
    rintro ⟨c, hc, _⟩
    cases hc
  | case2 rest tokens ih =>
    rintro ⟨b, hb, hbad⟩
    have hbr : b ∈ rest := by
      rcases List.mem_cons.mp hb with rfl | h
      · exact absurd hbad (by decide)
      · exact h
    obtain ⟨e, he, heq⟩ := ih ⟨b, hbr, hbad⟩
    exact ⟨e, he, by rw [tokenizeGo_lparen_cons]; exact heq⟩
  | case3 rest tokens _ ih =>
    rintro ⟨b, hb, hbad⟩
    have hbr : b ∈ rest := by
      rcases List.mem_cons.mp hb with rfl | h
      · exact absurd hbad (by decide)
      · exact h
    obtain ⟨e, he, heq⟩ := ih ⟨b, hbr, hbad⟩
    exact ⟨e, he, by rw [tokenizeGo_rparen_cons]; exact heq⟩
  | case4 rest tokens _ _ ih =>
    rintro ⟨b, hb, hbad⟩
    have hbr : b ∈ rest := by
      rcases List.mem_cons.mp hb with rfl | h
      · exact absurd hbad (by decide)
      · exact h
    obtain ⟨e, he, heq⟩ := ih ⟨b, hbr, hbad⟩
    exact ⟨e, he, by rw [tokenizeGo_plus_cons]; exact heq⟩
  | case5 rest tokens _ _ _ ih =>
    rintro ⟨b, hb, hbad⟩
    have hbr : b ∈ rest := by
      rcases List.mem_cons.mp hb with rfl | h
      · exact absurd hbad (by decide)
      · exact h
    obtain ⟨e, he, heq⟩ := ih ⟨b, hbr, hbad⟩
    exact ⟨e, he, by rw [tokenizeGo_minus_cons]; exact heq⟩
  | case6 rest tokens _ _ _ _ ih =>
    rintro ⟨b, hb, hbad⟩
    have hbr : b ∈ rest := by
      rcases List.mem_cons.mp hb with rfl | h
      · exact absurd hbad (by decide)
      · exact h
    obtain ⟨e, he, heq⟩ := ih ⟨b, hbr, hbad⟩
    exact ⟨e, he, by rw [tokenizeGo_star_cons]; exact heq⟩
  | case7 rest tokens _ _ _ _ _ ih =>
    rintro ⟨b, hb, hbad⟩
    have hbr : b ∈ rest := by
      rcases List.mem_cons.mp hb with rfl | h
      · exact absurd hbad (by decide)
      · exact h
    obtain ⟨e, he, heq⟩ := ih ⟨b, hbr, hbad⟩
    exact ⟨e, he, by rw [tokenizeGo_slash_cons]; exact heq⟩
  | case8 rest tokens _ _ _ _ _ _ ih =>
    rintro ⟨b, hb, hbad⟩
    have hbr : b ∈ rest := by
      rcases List.mem_cons.mp hb with rfl | h
      · exact absurd hbad (by decide)
      · exact h
    obtain ⟨e, he, heq⟩ := ih ⟨b, hbr, hbad⟩
    exact ⟨e, he, by rw [tokenizeGo_percent_cons]; exact heq⟩
  | case9 rest tokens _ _ _ _ _ _ _ ih =>
    rintro ⟨b, hb, hbad⟩
    have hbr : b ∈ rest := by
      rcases List.mem_cons.mp hb with rfl | h
      · exact absurd hbad (by decide)
      · exact h
    obtain ⟨e, he, heq⟩ := ih ⟨b, hbr, hbad⟩
    exact ⟨e, he, by rw [tokenizeGo_equals_cons]; exact heq⟩
  | case10 c rest tokens p1 p2 p3 p4 p5 p6 p7 p8 hnum ih =>
    rintro ⟨b, hb, hbad⟩
    have hbd : b ∈ (c :: rest).dropWhile rustIsNumeric := by
      have hsplit := List.takeWhile_append_dropWhile rustIsNumeric (c :: rest)
      rw [← hsplit] at hb
      rcases List.mem_append.mp hb with h | h
      · have := List.mem_takeWhile_imp h
        rw [inDispatchClass_of_num this] at hbad
        cases hbad
      · exact h
    obtain ⟨e, he, heq⟩ := ih ⟨b, hbd, hbad⟩
    exact ⟨e, he, by rw [tokenizeGo_num_cons hnum]; exact heq⟩
  | case11 c rest tokens p1 p2 p3 p4 p5 p6 p7 p8 hnn halpha ih =>
    rintro ⟨b, hb, hbad⟩
    have hbd : b ∈ (c :: rest).dropWhile rustIsAlphabetic := by
      have hsplit := List.takeWhile_append_dropWhile rustIsAlphabetic (c :: rest)
      rw [← hsplit] at hb
      rcases List.mem_append.mp hb with h | h
      · have := List.mem_takeWhile_imp h
        rw [inDispatchClass_of_alpha this] at hbad
        cases hbad
      · exact h
    obtain ⟨e, he, heq⟩ := ih ⟨b, hbd, hbad⟩
    exact ⟨e, he, by rw [tokenizeGo_alpha_cons halpha]; exact heq⟩
  | case12 c rest tokens p1 p2 p3 p4 p5 p6 p7 p8 hnn han hws ih =>
    rintro ⟨b, hb, hbad⟩
    have hbr : b ∈ rest := by
      rcases List.mem_cons.mp hb with rfl | h
      · rw [inDispatchClass_of_ws hws] at hbad
        cases hbad
      · exact h
    obtain ⟨e, he, heq⟩ := ih ⟨b, hbr, hbad⟩
    exact ⟨e, he, by rw [tokenizeGo_ws_cons hws]; exact heq⟩
  | case13 c rest tokens p1 p2 p3 p4 p5 p6 p7 p8 hnn han hwn =>
    intro _
    have hc := inDispatchClass_false p1 p2 p3 p4 p5 p6 p7 p8 hnn han hwn
    exact ⟨c, hc, tokenizeGo_err_cons hc rest tokens⟩

theorem tokenizeGo_all_ws (src : List Char) :
    ∀ tokens : List Token, (∀ c ∈ src, rustIsWhitespace c = true) →
      tokenizeGo src tokens = Except.ok (tokens ++ [eofToken]) := by
  induction src with
  | nil =>
    intro tokens _
    rw [tokenizeGo, eofToken]
  | cons c rest ih =>
    intro tokens h
    rw [tokenizeGo_ws_cons (h c (by simp))]
    exact ih tokens (fun e he => h e (List.mem_cons_of_mem _ he))


theorem filter_notws_split (p : Char → Bool) (l : List Char)
    (hp : ∀ a, p a = true → rustIsWhitespace a = false) :
    l.filter (fun c => !rustIsWhitespace c) =
      l.takeWhile p ++ (l.dropWhile p).filter (fun c => !rustIsWhitespace c) := by
  conv_lhs => rw [← List.takeWhile_append_dropWhile p l]
  rw [List.filter_append]
  congr 1
  exact List.filter_eq_self.mpr (fun a ha => by
    simp [hp a (List.mem_takeWhile_imp ha)])

theorem lexemeChars_append (a b : List Token) :
    lexemeChars (a ++ b) = lexemeChars a ++ lexemeChars b := by
  simp [lexemeChars]

theorem tokenizeGo_chars (src : List Char) (tokens : List Token) :
    ∀ ts, tokenizeGo src tokens = Except.ok ts →
      lexemeChars ts.dropLast =
        lexemeChars tokens ++ src.filter (fun c => !rustIsWhitespace c) := by
  induction src, tokens using tokenizeGo.induct with
  | case1 tokens =>
    intro ts heq
    simp only [tokenizeGo, Except.ok.injEq] at heq
    subst heq
    simp
  | case2 rest tokens ih =>
    intro ts heq
    rw [tokenizeGo_lparen_cons] at heq
    rw [ih ts heq, lexemeChars_append, List.filter_cons]
    simp +decide [lexemeChars]
  | case3 rest tokens _ ih =>
    intro ts heq
    rw [tokenizeGo_rparen_cons] at heq
    rw [ih ts heq, lexemeChars_append, List.filter_cons]
    simp +decide [lexemeChars]
  | case4 rest tokens _ _ ih =>
    intro ts heq
    rw [tokenizeGo_plus_cons] at heq
    rw [ih ts heq, lexemeChars_append, List.filter_cons]
    simp +decide [lexemeChars]
  | case5 rest tokens _ _ _ ih =>
    intro ts heq
    rw [tokenizeGo_minus_cons] at heq
    rw [ih ts heq, lexemeChars_append, List.filter_cons]
    simp +decide [lexemeChars]
  | case6 rest tokens _ _ _ _ ih =>
    intro ts heq
    rw [tokenizeGo_star_cons] at heq
    rw [ih ts heq, lexemeChars_append, List.filter_cons]
    simp +decide [lexemeChars]
  | case7 rest tokens _ _ _ _ _ ih =>
    intro ts heq
    rw [tokenizeGo_slash_cons] at heq
    rw [ih ts heq, lexemeChars_append, List.filter_cons]
    simp +decide [lexemeChars]
  | case8 rest tokens _ _ _ _ _ _ ih =>
    intro ts heq
    rw [tokenizeGo_percent_cons] at heq
    rw [ih ts heq, lexemeChars_append, List.filter_cons]
    simp +decide [lexemeChars]
  | case9 rest tokens _ _ _ _ _ _ _ ih =>
    intro ts heq
    rw [tokenizeGo_equals_cons] at heq
    rw [ih ts heq, lexemeChars_append, List.filter_cons]
    simp +decide [lexemeChars]
  | case10 c rest tokens p1 p2 p3 p4 p5 p6 p7 p8 hnum ih =>
    intro ts heq
    rw [tokenizeGo_num_cons hnum] at heq
    rw [ih ts heq, lexemeChars_append,
      filter_notws_split rustIsNumeric (c :: rest) (fun a ha => (num_char_props ha).1)]
    simp [lexemeChars]
  | case11 c rest tokens p1 p2 p3 p4 p5 p6 p7 p8 hnn halpha ih =>
    intro ts heq
    rw [tokenizeGo_alpha_cons halpha] at heq
    rw [ih ts heq, lexemeChars_append,
      filter_notws_split rustIsAlphabetic (c :: rest) (fun a ha => (alpha_char_props ha).2.1)]
    simp [lexemeChars]
  | case12 c rest tokens p1 p2 p3 p4 p5 p6 p7 p8 hnn han hws ih =>
    intro ts heq
    rw [tokenizeGo_ws_cons hws] at heq
    rw [ih ts heq, List.filter_cons]
    simp [hws]
  | case13 c rest tokens p1 p2 p3 p4 p5 p6 p7 p8 hnn han hwn =>
    intro ts heq
    rw [tokenizeGo_err_cons (inDispatchClass_false p1 p2 p3 p4 p5 p6 p7 p8 hnn han hwn)] at heq
    cases heq

theorem keywordType_ne_num (s : String) : keywordType s ≠ TokenType.Number := by
  by_cases h1 : s = "let"
  · simp [keywordType, keywords, List.lookup, h1]
  · have e1 : (s == "let") = false := beq_eq_false_iff_ne.mpr h1
    by_cases h2 : s = "null"
    · simp [keywordType, keywords, List.lookup, e1, h2]
    · have e2 : (s == "null") = false := beq_eq_false_iff_ne.mpr h2
      simp [keywordType, keywords, List.lookup, e1, e2]

theorem tokenizeDupGo_filter (src : List Char) (tokens : List Token) :
    tokenizeDupGo src (tokens.filter notNum) =
      (tokenizeGo src tokens).map (fun ts => ts.filter notNum) := by
  induction src, tokens using tokenizeGo.induct with
  | case1 tokens =>
    rw [tokenizeGo, tokenizeDupGo]
    simp [Except.map, List.filter_append, notNum]
  | case2 rest tokens ih =>
    rw [tokenizeGo_lparen_cons, tokenizeDupGo_lparen_cons]
    rw [show tokens.filter notNum ++ [(⟨"(", TokenType.OpenParen⟩ : Token)]
      = (tokens ++ [(⟨"(", TokenType.OpenParen⟩ : Token)]).filter notNum from by
        simp [List.filter_append, notNum]]
    exact ih
  | case3 rest tokens _ ih =>
    rw [tokenizeGo_rparen_cons, tokenizeDupGo_rparen_cons]
    rw [show tokens.filter notNum ++ [(⟨")", TokenType.CloseParen⟩ : Token)]
      = (tokens ++ [(⟨")", TokenType.CloseParen⟩ : Token)]).filter notNum from by
        simp [List.filter_append, notNum]]
    exact ih
  | case4 rest tokens _ _ ih =>
    rw [tokenizeGo_plus_cons, tokenizeDupGo_plus_cons]
    rw [show tokens.filter notNum ++ [(⟨"+", TokenType.BinaryOperator⟩ : Token)]
      = (tokens ++ [(⟨"+", TokenType.BinaryOperator⟩ : Token)]).filter notNum from by
        simp [List.filter_append, notNum]]
    exact ih
  | case5 rest tokens _ _ _ ih =>
    rw [tokenizeGo_minus_cons, tokenizeDupGo_minus_cons]
    rw [show tokens.filter notNum ++ [(⟨"-", TokenType.BinaryOperator⟩ : Token)]
      = (tokens ++ [(⟨"-", TokenType.BinaryOperator⟩ : Token)]).filter notNum from by
        simp [List.filter_append, notNum]]
    exact ih
  | case6 rest tokens _ _ _ _ ih =>
    rw [tokenizeGo_star_cons, tokenizeDupGo_star_cons]
    rw [show tokens.filter notNum ++ [(⟨"*", TokenType.BinaryOperator⟩ : Token)]
      = (tokens ++ [(⟨"*", TokenType.BinaryOperator⟩ : Token)]).filter notNum from by
        simp [List.filter_append, notNum]]
    exact ih
  | case7 rest tokens _ _ _ _ _ ih =>
    rw [tokenizeGo_slash_cons, tokenizeDupGo_slash_cons]
    rw [show tokens.filter notNum ++ [(⟨"/", TokenType.BinaryOperator⟩ : Token)]
      = (tokens ++ [(⟨"/", TokenType.BinaryOperator⟩ : Token)]).filter notNum from by
        simp [List.filter_append, notNum]]
    exact ih
  | case8 rest tokens _ _ _ _ _ _ ih =>
    rw [tokenizeGo_percent_cons, tokenizeDupGo_percent_cons]
    rw [show tokens.filter notNum ++ [(⟨"%", TokenType.BinaryOperator⟩ : Token)]
      = (tokens ++ [(⟨"%", TokenType.BinaryOperator⟩ : Token)]).filter notNum from by
        simp [List.filter_append, notNum]]
    exact ih
  | case9 rest tokens _ _ _ _ _ _ _ ih =>
    rw [tokenizeGo_equals_cons, tokenizeDupGo_equals_cons]
    rw [show tokens.filter notNum ++ [(⟨"=", TokenType.Equals⟩ : Token)]
      = (tokens ++ [(⟨"=", TokenType.Equals⟩ : Token)]).filter notNum from by
        simp [List.filter_append, notNum]]
    exact ih
  | case10 c rest tokens p1 p2 p3 p4 p5 p6 p7 p8 hnum ih =>
    rw [tokenizeGo_num_cons hnum, tokenizeDupGo_num_cons hnum]
    rw [show tokens.filter notNum
      = (tokens ++ [(⟨String.mk ((c :: rest).takeWhile rustIsNumeric),
          TokenType.Number⟩ : Token)]).filter notNum from by
        simp [List.filter_append, notNum]]
    exact ih
  | case11 c rest tokens p1 p2 p3 p4 p5 p6 p7 p8 hnn halpha ih =>
    rw [tokenizeGo_alpha_cons halpha, tokenizeDupGo_alpha_cons halpha]
    rw [show tokens.filter notNum ++ [(⟨String.mk ((c :: rest).takeWhile rustIsAlphabetic),
          keywordType (String.mk ((c :: rest).takeWhile rustIsAlphabetic))⟩ : Token)]
      = (tokens ++ [(⟨String.mk ((c :: rest).takeWhile rustIsAlphabetic),
          keywordType (String.mk ((c :: rest).takeWhile rustIsAlphabetic))⟩ : Token)]).filter notNum from by
        simp [List.filter_append, notNum, keywordType_ne_num]]
    exact ih
  | case12 c rest tokens p1 p2 p3 p4 p5 p6 p7 p8 hnn han hws ih =>
    rw [tokenizeGo_ws_cons hws, tokenizeDupGo_ws_cons hws]
    exact ih
  | case13 c rest tokens p1 p2 p3 p4 p5 p6 p7 p8 hnn han hwn =>
    have hc := inDispatchClass_false p1 p2 p3 p4 p5 p6 p7 p8 hnn han hwn
    rw [tokenizeGo_err_cons hc, tokenizeDupGo_err_cons hc]
    simp [Except.map]


theorem tokenizeDupGo_eq_of_nonum (src : List Char) (tokens : List Token) :
    (∀ c ∈ src, rustIsNumeric c = false) → tokenizeDupGo src tokens = tokenizeGo src tokens := by
  induction src, tokens using tokenizeGo.induct with
  | case1 tokens =>
    intro _
    rw [tokenizeGo, tokenizeDupGo]
  | case2 rest tokens ih =>
    intro h
    rw [tokenizeGo_lparen_cons, tokenizeDupGo_lparen_cons]
    exact ih (fun e he => h e (List.mem_cons_of_mem _ he))
  | case3 rest tokens _ ih =>
    intro h
    rw [tokenizeGo_rparen_cons, tokenizeDupGo_rparen_cons]
    exact ih (fun e he => h e (List.mem_cons_of_mem _ he))
  | case4 rest tokens _ _ ih =>
    intro h
    rw [tokenizeGo_plus_cons, tokenizeDupGo_plus_cons]
    exact ih (fun e he => h e (List.mem_cons_of_mem _ he))
  | case5 rest tokens _ _ _ ih =>
    intro h
    rw [tokenizeGo_minus_cons, tokenizeDupGo_minus_cons]
    exact ih (fun e he => h e (List.mem_cons_of_mem _ he))
  | case6 rest tokens _ _ _ _ ih =>
    intro h
    rw [tokenizeGo_star_cons, tokenizeDupGo_star_cons]
    exact ih (fun e he => h e (List.mem_cons_of_mem _ he))
  | case7 rest tokens _ _ _ _ _ ih =>
    intro h
    rw [tokenizeGo_slash_cons, tokenizeDupGo_slash_cons]
    exact ih (fun e he => h e (List.mem_cons_of_mem _ he))
  | case8 rest tokens _ _ _ _ _ _ ih =>
    intro h
    rw [tokenizeGo_percent_cons, tokenizeDupGo_percent_cons]
    exact ih (fun e he => h e (List.mem_cons_of_mem _ he))
  | case9 rest tokens _ _ _ _ _ _ _ ih =>
    intro h
    rw [tokenizeGo_equals_cons, tokenizeDupGo_equals_cons]
    exact ih (fun e he => h e (List.mem_cons_of_mem _ he))
  | case10 c rest tokens p1 p2 p3 p4 p5 p6 p7 p8 hnum ih =>
    intro h
    rw [h c (by simp)] at hnum
    cases hnum
  | case11 c rest tokens p1 p2 p3 p4 p5 p6 p7 p8 hnn halpha ih =>
    intro h
    rw [tokenizeGo_alpha_cons halpha, tokenizeDupGo_alpha_cons halpha]
    exact ih (fun e he => h e ((List.dropWhile_sublist _).subset he))
  | case12 c rest tokens p1 p2 p3 p4 p5 p6 p7 p8 hnn han hws ih =>
    intro h
    rw [tokenizeGo_ws_cons hws, tokenizeDupGo_ws_cons hws]
    exact ih (fun e he => h e (List.mem_cons_of_mem _ he))
  | case13 c rest tokens p1 p2 p3 p4 p5 p6 p7 p8 hnn han hwn =>
    intro _
    have hc := inDispatchClass_false p1 p2 p3 p4 p5 p6 p7 p8 hnn han hwn
    rw [tokenizeGo_err_cons hc, tokenizeDupGo_err_cons hc]

theorem tokenizeDup_eq_filter (s : String) :
    tokenizeDup s = (tokenize s).map (fun ts => ts.filter notNum) := by
  have h := tokenizeDupGo_filter s.data []
  rw [show (([] : List Token).filter notNum) = [] from rfl] at h
  exact h

theorem tokenizeDup_ok_shape (s : String) (ts' : List Token)
    (h : tokenizeDup s = Except.ok ts') :
    ∃ front, ts' = front ++ [eofToken] ∧ ∀ t ∈ front, t.type_ ≠ TokenType.EOF := by
  have hid := tokenizeDup_eq_filter s
  rw [h] at hid
  cases hmain : tokenize s with
  | error e =>
    rw [hmain] at hid
    simp [Except.map] at hid
  | ok ts =>
    rw [hmain] at hid
    simp only [Except.map, Except.ok.injEq] at hid
    obtain ⟨front, rfl, hfr⟩ := tokenizeGo_ok_shape s.data [] ts (by simp) hmain
    refine ⟨front.filter notNum, ?_, ?_⟩
    · rw [hid]
      simp [List.filter_append, notNum, eofToken]
    · intro t ht
      exact hfr t (List.mem_of_mem_filter ht)


theorem tokenizeGo_single_acc (src : List Char) (tok : Token) :
    tokenizeGo src [tok] = (tokenizeGo src []).map (fun ts => tok :: ts) := by
  have h := tokenizeGo_acc src [] [tok]
  simpa using h

/-- C1: on every input on which `tokenize` succeeds (in either lexer file),
the returned token sequence is non-empty, ends with the `EndOfFile` sentinel
of kind `EOF`, and contains no `EOF`-kind token at any earlier position. -/
theorem claim_C1 :
    (∀ (s : String) (ts : List Token), tokenize s = Except.ok ts →
      ts ≠ [] ∧ ts.getLast? = some eofToken ∧ ∀ t ∈ ts.dropLast, t.type_ ≠ TokenType.EOF) ∧
    (∀ (s : String) (ts : List Token), tokenizeDup s = Except.ok ts →
      ts ≠ [] ∧ ts.getLast? = some eofToken ∧ ∀ t ∈ ts.dropLast, t.type_ ≠ TokenType.EOF) := by
  constructor
  · intro s ts h
    obtain ⟨front, rfl, hfr⟩ := tokenizeGo_ok_shape s.data [] ts (by simp) h
    exact ⟨by simp, List.getLast?_concat front, by rw [List.dropLast_concat]; exact hfr⟩
  · intro s ts h
    obtain ⟨front, rfl, hfr⟩ := tokenizeDup_ok_shape s ts h
    exact ⟨by simp, List.getLast?_concat front, by rw [List.dropLast_concat]; exact hfr⟩

theorem claim_C1_witness :
    ([eofToken] : List Token) ≠ [] ∧ ([eofToken] : List Token).getLast? = some eofToken ∧
      ∀ t ∈ ([eofToken] : List Token).dropLast, t.type_ ≠ TokenType.EOF :=
  claim_C1.1 ("") [eofToken] (by simp +decide [tokenize, tokenizeGo, eofToken])

/-- C2: when the first unconsumed character is in the scanner's numeric
class, `tokenize` consumes the whole maximal numeric run and emits exactly one
`Number` token whose lexeme is that run, then continues after the run; in
particular `tokenize "45"` is `[Number "45", EndOfFile]`, not two
single-digit tokens. -/
theorem claim_C2 :
    (∀ (s : String) (c : Char) (rest : List Char), s.data = c :: rest →
      rustIsNumeric c = true →
      tokenize s = (tokenizeGo (s.data.dropWhile rustIsNumeric) []).map
        (fun ts => ⟨String.mk (s.data.takeWhile rustIsNumeric), TokenType.Number⟩ :: ts)) ∧
    tokenize ("45") = Except.ok [⟨"45", TokenType.Number⟩, eofToken] := by
  constructor
  · intro s c rest hdata hnum
    rw [tokenize, hdata, tokenizeGo_num_cons hnum, List.nil_append, tokenizeGo_single_acc]
  · simp +decide [tokenize, tokenizeGo, eofToken]

theorem claim_C2_witness :
    tokenize ("45") = (tokenizeGo (("45").data.dropWhile rustIsNumeric) []).map
      (fun ts => ⟨String.mk (("45").data.takeWhile rustIsNumeric), TokenType.Number⟩ :: ts) :=
  claim_C2.1 ("45") '4' ['5'] rfl (by decide)

/-- C3: the duplicate scanner of `src/lexer.rs` differs from the complete one
of `src/lexer/lexer.rs` exactly by dropping every `Number` token: on every
input its result is the complete scanner's result with `Number` tokens
filtered out, on inputs with no numeric character the two agree exactly, and
on `"45"` the duplicate omits the `Number "45"` token. -/
theorem claim_C3 :
    (∀ s : String, tokenizeDup s = (tokenize s).map (fun ts => ts.filter notNum)) ∧
    (∀ s : String, (∀ c ∈ s.data, rustIsNumeric c = false) → tokenizeDup s = tokenize s) ∧
    tokenize ("45") = Except.ok [⟨"45", TokenType.Number⟩, eofToken] ∧
    tokenizeDup ("45") = Except.ok [eofToken] := by
  refine ⟨tokenizeDup_eq_filter, ?_, ?_, ?_⟩
  · intro s h
    rw [tokenizeDup, tokenize]
    exact tokenizeDupGo_eq_of_nonum s.data [] h
  · simp +decide [tokenize, tokenizeGo, eofToken]
  · simp +decide [tokenizeDup, tokenizeDupGo, eofToken]

theorem claim_C3_witness :
    tokenizeDup ("+") = tokenize ("+") :=
  claim_C3.2.1 ("+") (by decide)

/-- C4: an input containing a character outside every dispatch class makes
`tokenize` fail with an `UnrecognizedCharacter` error carrying such a
character — the caller gets no token sequence at all; e.g. on `"@"`. -/
theorem claim_C4 :
    (∀ s : String, (∃ c ∈ s.data, inDispatchClass c = false) →
      ∃ e, inDispatchClass e = false ∧
        tokenize s = Except.error (LexError.unrecognizedCharacter e)) ∧
    tokenize ("@") = Except.error (LexError.unrecognizedCharacter '@') := by
  constructor
  · intro s h
    rw [tokenize]
    exact tokenizeGo_err_of_bad s.data [] h
  · simp +decide [tokenize, tokenizeGo]

theorem claim_C4_witness :
    ∃ e, inDispatchClass e = false ∧
      tokenize ("@") = Except.error (LexError.unrecognizedCharacter e) :=
  claim_C4.1 ("@") ⟨'@', by decide, by decide⟩

/-- C5: keyword classification happens only after the full maximal alphabetic
run is collected, by exact case-sensitive lookup in `{let, null}`:
`tokenize "let"` gives a `Let` token, `tokenize "letx"` gives the single
`Identifier "letx"` (never `Let` then `Identifier "x"`). -/
theorem claim_C5 :
    keywordType ("let") = TokenType.Let ∧
    keywordType ("null") = TokenType.Null ∧
    keywordType ("letx") = TokenType.Identifier ∧
    keywordType ("Let") = TokenType.Identifier ∧
    (∀ (s : String) (c : Char) (rest : List Char), s.data = c :: rest →
      rustIsAlphabetic c = true →
      tokenize s = (tokenizeGo (s.data.dropWhile rustIsAlphabetic) []).map
        (fun ts => ⟨String.mk (s.data.takeWhile rustIsAlphabetic),
          keywordType (String.mk (s.data.takeWhile rustIsAlphabetic))⟩ :: ts)) ∧
    tokenize ("let") = Except.ok [⟨"let", TokenType.Let⟩, eofToken] ∧
    tokenize ("letx") = Except.ok [⟨"letx", TokenType.Identifier⟩, eofToken] := by
  refine ⟨rfl, rfl, rfl, rfl, ?_, ?_, ?_⟩
  · intro s c rest hdata halpha
    rw [tokenize, hdata, tokenizeGo_alpha_cons halpha, List.nil_append, tokenizeGo_single_acc]
  · simp +decide [tokenize, tokenizeGo, keywordType, keywords, eofToken]
  · simp +decide [tokenize, tokenizeGo, keywordType, keywords, eofToken]

theorem claim_C5_witness :
    tokenize ("a") = (tokenizeGo (("a").data.dropWhile rustIsAlphabetic) []).map
      (fun ts => ⟨String.mk (("a").data.takeWhile rustIsAlphabetic),
        keywordType (String.mk (("a").data.takeWhile rustIsAlphabetic))⟩ :: ts) :=
  claim_C5.2.2.2.2.1 ("a") 'a' [] rfl (by decide)

/-- C6: on every input all of whose characters are in the dispatch classes,
`tokenize` terminates with a successful token sequence (the embedding's
recursion is well-founded on the remaining input length, which is the
termination argument of the scan loop). -/
theorem claim_C6 :
    ∀ s : String, (∀ c ∈ s.data, inDispatchClass c = true) →
      ∃ ts, tokenize s = Except.ok ts := by
  intro s h
  rw [tokenize]
  exact tokenizeGo_ok_of_good s.data [] h

theorem claim_C6_witness :
    ∃ ts, tokenize ("let x = 45 * (4 / 3)") = Except.ok ts :=
  claim_C6 ("let x = 45 * (4 / 3)") (by decide)

/-- C7: an alphabetic run stops at the first non-alphabetic character and a
digit never extends an identifier: `tokenize "abc123"` is
`[Identifier "abc", Number "123", EndOfFile]`, and in general an alphabetic
character followed by a numeric one yields two separate tokens. -/
theorem claim_C7 :
    tokenize ("abc123") = Except.ok
      [⟨"abc", TokenType.Identifier⟩, ⟨"123", TokenType.Number⟩, eofToken] ∧
    (∀ a d : Char, rustIsAlphabetic a = true → rustIsNumeric d = true →
      tokenize (String.mk [a, d]) = Except.ok
        [⟨String.mk [a], keywordType (String.mk [a])⟩, ⟨String.mk [d], TokenType.Number⟩,
          eofToken]) := by
  constructor
  · simp +decide [tokenize, tokenizeGo, keywordType, keywords, eofToken]
  · intro a d ha hd
    have hda : rustIsAlphabetic d = false := by
      cases hb : rustIsAlphabetic d with
      | false => rfl
      | true => rw [(alpha_char_props hb).1] at hd; cases hd
    have hda' : ¬rustIsAlphabetic d = true := by simp [hda]
    rw [tokenize]
    show tokenizeGo [a, d] [] = _
    rw [tokenizeGo_alpha_cons ha]
    simp only [List.takeWhile_cons_of_pos ha, List.takeWhile_cons_of_neg hda',
      List.dropWhile_cons_of_pos ha, List.dropWhile_cons_of_neg hda']
    rw [tokenizeGo_num_cons hd]
    simp only [List.takeWhile_cons_of_pos hd, List.takeWhile_nil,
      List.dropWhile_cons_of_pos hd, List.dropWhile_nil]
    rw [tokenizeGo]
    simp [eofToken]

theorem claim_C7_witness :
    tokenize (String.mk ['x', '7']) = Except.ok
      [⟨String.mk ['x'], keywordType (String.mk ['x'])⟩, ⟨String.mk ['7'], TokenType.Number⟩,
        eofToken] :=
  claim_C7.2 'x' '7' (by decide) (by decide)

/-- C8: whitespace is consumed without emitting tokens: every input made only
of whitespace characters tokenizes to exactly `[EndOfFile]`; in particular
the input of the repository's whitespace test does. -/
theorem claim_C8 :
    (∀ s : String, (∀ c ∈ s.data, rustIsWhitespace c = true) →
      tokenize s = Except.ok [eofToken]) ∧
    tokenize ("\n\t  \r\n") = Except.ok [eofToken] := by
  constructor
  · intro s h
    rw [tokenize]
    have hh := tokenizeGo_all_ws s.data [] h
    simpa using hh
  · simp +decide [tokenize, tokenizeGo, eofToken]

theorem claim_C8_witness :
    tokenize (" ") = Except.ok [eofToken] :=
  claim_C8.1 (" ") (by decide)

/-- C9, counterexample to the claim as stated: `'٣'` (U+0663, an Arabic-Indic
digit) is not a decimal digit `0`–`9`, not alphabetic, not whitespace and not
one of the eight operator characters, yet `tokenize` consumes it into a
`Number` token instead of failing with `UnrecognizedCharacter`. -/
theorem claim_C9_counterexample :
    (¬(48 ≤ ('٣').toNat ∧ ('٣').toNat ≤ 57)) ∧
    rustIsAlphabetic '٣' = false ∧ rustIsWhitespace '٣' = false ∧
    ('٣') ∉ ['(', ')', '+', '-', '*', '/', '%', '='] ∧
    tokenize (String.mk ['٣']) =
      Except.ok [⟨String.mk ['٣'], TokenType.Number⟩, eofToken] := by
  refine ⟨by decide, by decide, by decide, by decide, ?_⟩
  simp +decide [tokenize, tokenizeGo, eofToken]

/-- C9 (amended): the numeric dispatch class is Rust's `char::is_numeric`
(Unicode numeric characters), a strict superset of the decimal digits: every
single character of that class is scanned into a `Number` token, and a
character is `UnrecognizedCharacter`-fatal exactly when it lies outside all
of the code's dispatch classes. -/
theorem claim_C9 :
    (∀ c : Char, rustIsNumeric c = true →
      tokenize (String.mk [c]) =
        Except.ok [⟨String.mk [c], TokenType.Number⟩, eofToken]) ∧
    (∀ c : Char, inDispatchClass c = false →
      tokenize (String.mk [c]) = Except.error (LexError.unrecognizedCharacter c)) := by
  constructor
  · intro c h
    rw [tokenize]
    show tokenizeGo [c] [] = _
    rw [tokenizeGo_num_cons h]
    simp only [List.takeWhile_cons_of_pos h, List.takeWhile_nil,
      List.dropWhile_cons_of_pos h, List.dropWhile_nil]
    rw [tokenizeGo]
    simp [eofToken]
  · intro c h
    rw [tokenize]
    show tokenizeGo [c] [] = _
    exact tokenizeGo_err_cons h [] []

theorem claim_C9_witness :
    tokenize (String.mk ['٣']) = Except.ok [⟨String.mk ['٣'], TokenType.Number⟩, eofToken] ∧
    tokenize (String.mk ['@']) = Except.error (LexError.unrecognizedCharacter '@') :=
  ⟨claim_C9.1 '٣' (by decide), claim_C9.2 '@' (by decide)⟩

/-- C10: on success, the concatenated lexemes of all tokens before the final
`EndOfFile` are exactly the input characters with whitespace removed — no
character is dropped or duplicated and no lexeme text is invented. -/
theorem claim_C10 :
    ∀ (s : String) (ts : List Token), tokenize s = Except.ok ts →
      lexemeChars ts.dropLast = s.data.filter (fun c => !rustIsWhitespace c) := by
  intro s ts h
  rw [tokenize] at h
  have hh := tokenizeGo_chars s.data [] ts h
  simpa [lexemeChars] using hh

theorem claim_C10_witness :
    lexemeChars ([⟨"let", TokenType.Let⟩, eofToken] : List Token).dropLast =
      ("let").data.filter (fun c => !rustIsWhitespace c) :=
  claim_C10 ("let") [⟨"let", TokenType.Let⟩, eofToken]
    (by simp +decide [tokenize, tokenizeGo, keywordType, keywords, eofToken])

end MiniLang
